import Mathlib

set_option maxRecDepth 1000000

/-!
Formal model of the credential key derivation and token lifecycle logic of the
vault-plugin-secrets-oauth-client-credentials backend.

The Go source is shallowly embedded: bytes are Nat values below 256, Go byte
slices are List Nat, Go strings are Lean String values hashed through their
UTF-8 bytes, the SHA-1 hash from crypto/sha1 is implemented concretely, Go nil
versus non-nil slices are Option values, wall-clock time is an Int parameter,
and the stateful handlers are pure functions that take the storage contents and
an upstream-exchange oracle and return the response together with the new
storage contents and flags recording which external effects happened
(lock acquisition, storage reads, upstream exchange, storage write).
-/

namespace OAuthCC

/-! SHA-1, implemented from FIPS 180 exactly as crypto/sha1 computes it,
with structural recursion only so that the kernel can evaluate it. -/

def w32 : Nat := 4294967296

def rotl (n x : Nat) : Nat := ((x <<< n) ||| (x >>> (32 - n))) % w32

/-- Append the 0x80 marker, zero padding and the 64-bit big-endian bit length. -/
def sha1pad (msg : List Nat) : List Nat :=
  let len := msg.length
  let bitLen := len * 8
  let padZeros := (119 - len % 64) % 64
  msg ++ [128] ++ List.replicate padZeros 0 ++
    [(bitLen >>> 56) % 256, (bitLen >>> 48) % 256, (bitLen >>> 40) % 256,
     (bitLen >>> 32) % 256, (bitLen >>> 24) % 256, (bitLen >>> 16) % 256,
     (bitLen >>> 8) % 256, bitLen % 256]

def bytesToWordsAux : List Nat → Nat → Nat → List Nat
  | [], _, _ => []
  | b :: rest, acc, cnt =>
      if cnt = 3 then (acc * 256 + b) :: bytesToWordsAux rest 0 0
      else bytesToWordsAux rest (acc * 256 + b) (cnt + 1)

/-- Group bytes four at a time into big-endian 32-bit words. -/
def bytesToWords (bs : List Nat) : List Nat := bytesToWordsAux bs 0 0

def chunksAux : List Nat → List Nat → Nat → List (List Nat)
  | [], acc, _ => if acc.isEmpty then [] else [acc.reverse]
  | x :: rest, acc, cnt =>
      if cnt = 15 then ((x :: acc).reverse) :: chunksAux rest [] 0
      else chunksAux rest (x :: acc) (cnt + 1)

/-- Split a word list into chunks of sixteen words. -/
def chunks16 (ws : List Nat) : List (List Nat) := chunksAux ws [] 0

/-- Extend the reversed word list by n message-schedule words. -/
def extendW : Nat → List Nat → List Nat
  | 0, rws => rws
  | n + 1, rws =>
      let w := rotl 1 ((rws.getD 2 0) ^^^ (rws.getD 7 0) ^^^ (rws.getD 13 0) ^^^
        (rws.getD 15 0))
      extendW n (w :: rws)

def sha1f (i b c d : Nat) : Nat :=
  if i < 20 then (b &&& c) ||| ((b ^^^ 4294967295) &&& d)
  else if i < 40 then b ^^^ c ^^^ d
  else if i < 60 then (b &&& c) ||| (b &&& d) ||| (c &&& d)
  else b ^^^ c ^^^ d

def sha1k (i : Nat) : Nat :=
  if i < 20 then 1518500249
  else if i < 40 then 1859775393
  else if i < 60 then 2400959708
  else 3395469782

structure SHA1State where
  a : Nat
  b : Nat
  c : Nat
  d : Nat
  e : Nat
  deriving Repr, DecidableEq

def sha1rounds : Nat → SHA1State → List Nat → SHA1State
  | _, st, [] => st
  | i, st, w :: ws =>
      let temp := (rotl 5 st.a + sha1f i st.b st.c st.d + st.e + sha1k i + w) % w32
      sha1rounds (i + 1) ⟨temp, st.a, rotl 30 st.b, st.c, st.d⟩ ws

def processChunk (h : SHA1State) (chunk : List Nat) : SHA1State :=
  let ws := (extendW 64 chunk.reverse).reverse
  let st := sha1rounds 0 h ws
  ⟨(h.a + st.a) % w32, (h.b + st.b) % w32, (h.c + st.c) % w32,
   (h.d + st.d) % w32, (h.e + st.e) % w32⟩

def sha1init : SHA1State :=
  ⟨1732584193, 4023233417, 2562383102, 271733878, 3285377520⟩

def word4 (x : Nat) : List Nat :=
  [(x >>> 24) % 256, (x >>> 16) % 256, (x >>> 8) % 256, x % 256]

/-- SHA-1 digest of a byte list, as a list of 20 bytes. -/
def sha1 (msg : List Nat) : List Nat :=
  let h := (chunks16 (bytesToWords (sha1pad msg))).foldl processChunk sha1init
  word4 h.a ++ word4 h.b ++ word4 h.c ++ word4 h.d ++ word4 h.e

/-- UTF-8 encoding of a single character, matching how Go obtains the byte
slice of a string. -/
def utf8Bytes (c : Char) : List Nat :=
  let n := c.toNat
  if n < 128 then [n]
  else if n < 2048 then [192 ||| (n >>> 6), 128 ||| (n &&& 63)]
  else if n < 65536 then
    [224 ||| (n >>> 12), 128 ||| ((n >>> 6) &&& 63), 128 ||| (n &&& 63)]
  else
    [240 ||| (n >>> 18), 128 ||| ((n >>> 12) &&& 63),
     128 ||| ((n >>> 6) &&& 63), 128 ||| (n &&& 63)]

def strBytes (s : String) : List Nat := (s.data.map utf8Bytes).flatten

/-- Lowercase hexadecimal digit, as produced by the %x format verb. -/
def hexDigit (n : Nat) : Char :=
  if n < 10 then Char.ofNat (48 + n) else Char.ofNat (87 + n)

def bytesToHexChars : List Nat → List Char
  | [] => []
  | b :: bs => hexDigit (b / 16) :: hexDigit (b % 16) :: bytesToHexChars bs

/-- Lowercase hex rendering of a byte list, as Sprintf with %x prints it. -/
def bytesToHex (bs : List Nat) : String := String.mk (bytesToHexChars bs)

/-! Lexicographic byte order on strings and the ascending sort used to model
sort.Strings. Go compares strings byte by byte; for valid UTF-8 this agrees
with comparing the Unicode code points, so the comparison is defined on the
character lists. -/

def charsLtB : List Char → List Char → Bool
  | [], [] => false
  | [], _ :: _ => true
  | _ :: _, [] => false
  | a :: as, b :: bs =>
      if a.toNat < b.toNat then true
      else if b.toNat < a.toNat then false
      else charsLtB as bs

def strLeB (a b : String) : Bool := !(charsLtB b.data a.data)

def strLe (a b : String) : Prop := strLeB a b = true

instance : DecidableRel strLe := fun a b => instDecidableEqBool (strLeB a b) true

/-- Ascending sort of a string slice, the behaviour of sort.Strings. -/
def sortStrings (l : List String) : List String := List.insertionSort strLe l

/-! Key derivation, from path_creds.go. -/

def credsPath : String := "creds"

def credsPathPfx : String := credsPath ++ "/"

/-- credKey hashes the name and splits the first few bytes into separate
buckets: creds/hex(hash[:2])/hex(hash[2:4])/hex(hash[4:]). -/
def credKey (name : String) : String :=
  let hash := sha1 (strBytes name)
  credsPathPfx ++ bytesToHex (hash.take 2) ++ "/" ++
    bytesToHex ((hash.drop 2).take 2) ++ "/" ++ bytesToHex (hash.drop 4)

/-- The default single-byte-patterned suffix hash assigned when no scopes are
provided: the byte 65 followed by nineteen zero bytes. -/
def defaultScopesHash : List Nat := 65 :: List.replicate 19 0

/-- Hash appended for a scope slice: the default pattern for a nil slice,
otherwise the SHA-1 of the comma-joined slice. The argument is expected
already sorted, because the caller sorts in place before this choice. -/
def scopesHash (scopes : Option (List String)) : List Nat :=
  match scopes with
  | none => defaultScopesHash
  | some l => sha1 (strBytes (String.intercalate "," l))

/-- credKeyWithScopes sorts the scope slice in place and then appends the hex
of the scope hash to the key. The returned pair is (derived key, contents of
the caller-supplied scope slice after the call), making the in-place
sort.Strings mutation of the argument explicit. -/
def credKeyWithScopesM (key : String) (scopes : Option (List String)) :
    String × Option (List String) :=
  let sorted := scopes.map sortStrings
  (key ++ "/" ++ bytesToHex (scopesHash sorted), sorted)

/-- The derived key alone (first component of credKeyWithScopesM). -/
def credKeyWithScopes (key : String) (scopes : Option (List String)) : String :=
  (credKeyWithScopesM key scopes).1

/-! Token records and validity, from golang.org/x/oauth2 Token.Valid:
valid iff non-empty access token and not expired, where a token with expiry
set is expired once expiry minus a 10 second delta is before the current
time, and a zero expiry never expires. -/

structure OToken where
  accessToken : String
  expiry : Option Int
  deriving Repr, DecidableEq

def expiryDelta : Int := 10

def tokenExpired (now : Int) (t : OToken) : Bool :=
  match t.expiry with
  | none => false
  | some e => decide (e - expiryDelta < now)

def tokenValid (now : Int) (t : OToken) : Bool :=
  t.accessToken != "" && !(tokenExpired now t)

/-- Validity of the nilable token pointer: tok != nil && tok.Valid(). -/
def optTokenValid (now : Int) (t : Option OToken) : Bool :=
  match t with
  | none => false
  | some tok => tokenValid now tok

/-! Storage, the logical.Storage collaborator: a finite map from keys to
token records with get, put, delete and list-children-of-a-path-segment. -/

abbrev Storage := List (String × OToken)

def sget (s : Storage) (k : String) : Option OToken :=
  (s.find? (fun p => p.1 == k)).map (fun p => p.2)

def sput (s : Storage) (k : String) (t : OToken) : Storage :=
  (k, t) :: s.filter (fun p => p.1 != k)

def sdelete (s : Storage) (k : String) : Storage :=
  s.filter (fun p => p.1 != k)

/-- Strip a leading pattern from a character list, or fail. -/
def dropPfx : List Char → List Char → Option (List Char)
  | [], k => some k
  | _ :: _, [] => none
  | a :: p, b :: k => if a = b then dropPfx p k else none

/-- First path segment of a relative key: everything up to and including the
first slash, or the whole remainder if it has no slash. -/
def firstSeg : List Char → List Char
  | [] => []
  | c :: cs => if c = '/' then ['/'] else c :: firstSeg cs

/-- Keys directly under a path position, with the position stripped, as the
List operation of logical.Storage reports them. -/
def slist (s : Storage) (pos : String) : List String :=
  ((s.map (fun p => p.1)).filterMap
    (fun k => (dropPfx pos.data k.data).map (fun r => String.mk (firstSeg r)))).dedup

/-! Configuration, from path_config.go. -/

structure config where
  clientID : String
  clientSecret : String
  tokenURL : String
  scopes : Option (List String)
  deriving Repr, DecidableEq

/-! Upstream exchange and the error taxonomy. An upstream failure is either a
RetrieveError, the value the oauth2 library returns when the provider rejects
the request, or any other error (network failure, malformed response). -/

inductive XErr where
  | retrieve (msg : String)
  | other (msg : String)
  deriving Repr, DecidableEq

inductive GErr where
  | invalidCredentials
  | storageErr (msg : String)
  | upstream (msg : String)
  deriving Repr, DecidableEq

inductive GTRes where
  | ok (t : OToken)
  | err (e : GErr)
  deriving Repr, DecidableEq

/-- The clientcredentials.Config assembled for the exchange: client id, client
secret and token URL from the stored configuration, and the configured default
scopes overridden by the request scopes when those are non-nil. -/
structure ExchangeReq where
  clientID : String
  clientSecret : String
  tokenURL : String
  scopes : Option (List String)
  deriving Repr, DecidableEq

def clientCredsConfig (c : config) (scopes : Option (List String)) : ExchangeReq :=
  ⟨c.clientID, c.clientSecret, c.tokenURL,
    match scopes with
    | none => c.scopes
    | some l => some l⟩

/-- Outcome of one getToken control flow, with the effects recorded: whether
the broker-wide mutex was taken, whether the upstream exchange ran, the token
written to storage if any, and how many storage reads happened. -/
structure GTOut where
  result : GTRes
  locked : Bool
  exchanged : Bool
  wrote : Option OToken
  reads : Nat
  deriving Repr, DecidableEq

/-- Lines 66 to 81 of path_creds.go: run the exchange; a RetrieveError is
logged and mapped to errInvalidCredentials, any other error is returned
unchanged, and on success the token is persisted and returned. -/
def getTokenExchange (xres : Except XErr OToken) : GTOut :=
  match xres with
  | .error (.retrieve _) => ⟨.err .invalidCredentials, true, true, none, 2⟩
  | .error (.other m) => ⟨.err (.upstream m), true, true, none, 2⟩
  | .ok t => ⟨.ok t, true, true, some t, 2⟩

/-- Lines 57 to 81 of path_creds.go, the part run under b.credMut: re-read the
record at key and test the literal condition
err != nil && tok != nil && tok.Valid(); when it holds return the re-read
token, otherwise fall through to the exchange. The re-read result read2
delivers either an error (in which case the returned token pointer is nil) or
a token pointer. -/
def getTokenLocked (now : Int) (read2 : Except GErr (Option OToken))
    (xres : Except XErr OToken) : GTOut :=
  let tok2 : Option OToken := match read2 with | .error _ => none | .ok t => t
  let err2 : Option GErr := match read2 with | .error e => some e | .ok _ => none
  match err2, tok2 with
  | some _, some t =>
      if tokenValid now t then ⟨.ok t, true, false, none, 2⟩
      else getTokenExchange xres
  | _, _ => getTokenExchange xres

/-- getToken control flow over explicit read results: the fast-path read
read1, then if the token is nil or invalid the locked path with the re-read
read2 and the exchange result. -/
def getTokenCore (now : Int) (read1 read2 : Except GErr (Option OToken))
    (xres : Except XErr OToken) : GTOut :=
  match read1 with
  | .error e => ⟨.err e, false, false, none, 1⟩
  | .ok tok =>
    match tok with
    | some t =>
        if tokenValid now t then ⟨.ok t, false, false, none, 1⟩
        else getTokenLocked now read2 xres
    | none => getTokenLocked now read2 xres

structure GTRun where
  result : GTRes
  store : Storage
  locked : Bool
  exchanged : Bool
  reads : Nat
  deriving Repr, DecidableEq

/-- Apply a getToken outcome to the storage: a written token replaces the
record at key, otherwise the storage is unchanged. -/
def mkRun (s : Storage) (key : String) (out : GTOut) : GTRun :=
  ⟨out.result,
   match out.wrote with
   | some t => sput s key t
   | none => s,
   out.locked, out.exchanged, out.reads⟩

/-- getToken run sequentially against a storage value: both reads see the same
storage (no concurrent writer between them), and the exchange oracle answers
the assembled request. -/
def getToken (now : Int) (s : Storage) (c : config) (key : String)
    (scopes : Option (List String)) (xchg : ExchangeReq → Except XErr OToken) : GTRun :=
  mkRun s key
    (getTokenCore now (.ok (sget s key)) (.ok (sget s key))
      (xchg (clientCredsConfig c scopes)))

/-! The request-facing handlers. -/

inductive RespVal where
  | errResp (msg : String)
  | dataResp (accessToken : String) (expires : Option Int)
  deriving Repr, DecidableEq

/-- Handler outcome: the logical.Response produced (if any), the Go error
returned (if any), the storage afterwards, and the recorded effects. -/
structure CredsReadOut where
  resp : Option RespVal
  err : Option GErr
  store : Storage
  locked : Bool
  exchanged : Bool
  reads : Nat
  deriving Repr, DecidableEq

/-- credsReadOperation: fetch the configuration (the cfg argument is the
getConfig result, none when no configuration record exists in storage); when
absent answer the Not configured error response at once. Otherwise resolve
the effective scopes (request override when the field was supplied, else the
configured defaults), derive the key (which sorts the scope slice in place,
so the sorted slice is what getToken then receives), call getToken, and map
its outcome: errInvalidCredentials to the Invalid client credentials error
response, other errors through unchanged, an invalid token to the Token
expired error response, and otherwise the access_token and expires data. -/
def credsReadOperation (now : Int) (s : Storage) (cfg : Option config)
    (name : String) (scopesParam : Option (List String))
    (xchg : ExchangeReq → Except XErr OToken) : CredsReadOut :=
  match cfg with
  | none => ⟨some (.errResp "Not configured"), none, s, false, false, 0⟩
  | some c =>
    let scopes0 : Option (List String) :=
      match scopesParam with
      | some d => some d
      | none => c.scopes
    let km := credKeyWithScopesM (credKey name) scopes0
    let r := getToken now s c km.1 km.2 xchg
    match r.result with
    | .err .invalidCredentials =>
        ⟨some (.errResp "Invalid client credentials"), none, r.store, r.locked,
          r.exchanged, r.reads⟩
    | .err e => ⟨none, some e, r.store, r.locked, r.exchanged, r.reads⟩
    | .ok t =>
        if !(tokenValid now t) then
          ⟨some (.errResp "Token expired"), none, r.store, r.locked, r.exchanged, r.reads⟩
        else
          ⟨some (.dataResp t.accessToken t.expiry), none, r.store, r.locked,
            r.exchanged, r.reads⟩

structure CredsDelOut where
  store : Storage
  locked : Bool
  deriving Repr, DecidableEq

/-- credsDeleteOperation: under b.credMut, compute the name bucket key, list
the suffix keys stored under it, and delete each of them. -/
def credsDeleteOperation (s : Storage) (name : String) : CredsDelOut :=
  let key := credKey name
  let scopes := slist s (key ++ "/")
  ⟨scopes.foldl (fun st sc => sdelete st (key ++ "/" ++ sc)) s, true⟩

/-! configReadOperation, from path_config.go. -/

inductive FieldVal where
  | str (s : String)
  | strList (l : Option (List String))
  deriving Repr, DecidableEq

/-- configReadOperation: nil response when no configuration exists, otherwise
a response whose data map holds exactly client_id, token_url and scopes. -/
def configReadOperation (c : Option config) : Option (List (String × FieldVal)) :=
  match c with
  | none => none
  | some c =>
      some [("client_id", .str c.clientID), ("token_url", .str c.tokenURL),
            ("scopes", .strList c.scopes)]

/-! Theorems. First the order theory of the byte-lexicographic comparison,
needed to show that sorting is a function of the multiset of scopes. -/

theorem charsLtB_cons (a b : Char) (as bs : List Char) :
    charsLtB (a :: as) (b :: bs) =
      (decide (a.toNat < b.toNat) || (decide (a.toNat = b.toNat) && charsLtB as bs)) := by
  simp only [charsLtB]
  by_cases hab : a.toNat < b.toNat
  · simp [hab]
  · by_cases hba : b.toNat < a.toNat
    · have hne : a.toNat ≠ b.toNat := by omega
      simp [hab, hba, hne]
    · have he : a.toNat = b.toNat := by omega
      simp [hab, hba, he]

theorem charsLtB_asymm : ∀ {x y : List Char}, charsLtB x y = true →
    charsLtB y x = true → False := by
  intro x
  induction x with
  | nil => intro y h1 h2; cases y <;> simp_all [charsLtB]
  | cons a as ih =>
    intro y h1 h2
    cases y with
    | nil => simp_all [charsLtB]
    | cons b bs =>
      rw [charsLtB_cons] at h1 h2
      simp only [Bool.or_eq_true, Bool.and_eq_true, decide_eq_true_eq] at h1 h2
      rcases h1 with h1 | ⟨he1, hr1⟩
      · rcases h2 with h2 | ⟨he2, _⟩ <;> omega
      · rcases h2 with h2 | ⟨_, hr2⟩
        · omega
        · exact ih hr1 hr2

theorem charsLtB_trans : ∀ {x y z : List Char}, charsLtB x y = true →
    charsLtB y z = true → charsLtB x z = true := by
  intro x
  induction x with
  | nil =>
    intro y z h1 h2
    cases y <;> cases z <;> simp_all [charsLtB]
  | cons a as ih =>
    intro y z h1 h2
    cases y with
    | nil => simp_all [charsLtB]
    | cons b bs =>
      cases z with
      | nil => simp_all [charsLtB]
      | cons c cs =>
        rw [charsLtB_cons] at h1 h2 ⊢
        simp only [Bool.or_eq_true, Bool.and_eq_true, decide_eq_true_eq] at h1 h2 ⊢
        rcases h1 with h1 | ⟨he1, hr1⟩
        · rcases h2 with h2 | ⟨he2, _⟩
          · exact Or.inl (by omega)
          · exact Or.inl (by omega)
        · rcases h2 with h2 | ⟨he2, hr2⟩
          · exact Or.inl (by omega)
          · exact Or.inr ⟨by omega, ih hr1 hr2⟩

theorem charsLtB_eq_of_not : ∀ {x y : List Char}, charsLtB x y = false →
    charsLtB y x = false → x = y := by
  intro x
  induction x with
  | nil => intro y h1 h2; cases y <;> simp_all [charsLtB]
  | cons a as ih =>
    intro y h1 h2
    cases y with
    | nil => simp_all [charsLtB]
    | cons b bs =>
      rw [charsLtB_cons] at h1 h2
      simp only [Bool.or_eq_false_iff, Bool.and_eq_false_iff, decide_eq_false_iff_not,
        decide_eq_true_eq] at h1 h2
      have he : a.toNat = b.toNat := by
        rcases h1 with ⟨h1a, _⟩
        rcases h2 with ⟨h2a, _⟩
        omega
      have hch : a = b := Char.ext_iff.mpr (UInt32.ext he)
      rcases h1 with ⟨_, h1b⟩
      rcases h1b with h1b | h1b
      · omega
      · rcases h2 with ⟨_, h2b⟩
        rcases h2b with h2b | h2b
        · omega
        · rw [hch, ih h1b h2b]

theorem strLe_total : ∀ a b : String, strLe a b ∨ strLe b a := by
  intro a b
  unfold strLe strLeB
  rcases h : charsLtB b.data a.data
  · left; simp
  · right
    rcases h2 : charsLtB a.data b.data
    · simp
    · exact absurd (charsLtB_asymm h h2) id

theorem strLe_trans : ∀ a b c : String, strLe a b → strLe b c → strLe a c := by
  intro a b c h1 h2
  unfold strLe strLeB at *
  simp only [Bool.not_eq_true'] at h1 h2 ⊢
  rcases hca : charsLtB c.data a.data
  · rfl
  · rcases hbc : charsLtB b.data c.data
    · have hcb : c.data = b.data := charsLtB_eq_of_not h2 hbc
      rw [hcb, h1] at hca
      exact hca.symm
    · have hba := charsLtB_trans hbc hca
      rw [h1] at hba
      exact hba.symm

theorem strLe_antisymm : ∀ a b : String, strLe a b → strLe b a → a = b := by
  intro a b h1 h2
  unfold strLe strLeB at h1 h2
  simp only [Bool.not_eq_true'] at h1 h2
  exact String.ext (charsLtB_eq_of_not h2 h1)

theorem sortStrings_perm (l : List String) : (sortStrings l).Perm l :=
  List.perm_insertionSort _ l

theorem sortStrings_sorted (l : List String) : List.Sorted strLe (sortStrings l) :=
  @List.sorted_insertionSort String strLe _ ⟨strLe_total⟩ ⟨strLe_trans⟩ l

theorem sortStrings_eq_of_perm {l1 l2 : List String} (h : l1.Perm l2) :
    sortStrings l1 = sortStrings l2 :=
  @List.eq_of_perm_of_sorted String strLe ⟨strLe_antisymm⟩ _ _
    (((sortStrings_perm l1).trans h).trans (sortStrings_perm l2).symm)
    (sortStrings_sorted l1) (sortStrings_sorted l2)

/-- The condition on line 62 of path_creds.go tests err != nil where absorbing
a concurrent refresh requires err == nil, so the locked path always falls
through to the exchange regardless of what the re-read returned. -/
theorem getTokenLocked_reread_dead (now : Int) (read2 : Except GErr (Option OToken))
    (xres : Except XErr OToken) : getTokenLocked now read2 xres = getTokenExchange xres := by
  cases read2 with
  | error e => rfl
  | ok t => cases t <;> rfl

/-- Claim C1: after the fast-path read finds no valid token and the lock is
acquired, a successful re-read yielding a valid token is claimed to be
returned without an upstream exchange and without a write. The code instead
tests err != nil on the re-read (line 62), a dead condition, so even when the
locked re-read succeeds with a present valid token the exchange runs and its
result overwrites the cache: at this failing input the fast read finds
nothing, the locked re-read finds a valid cached token, yet the output shows
the exchange happened and the exchanged token, not the cached one, is both
returned and written. -/
theorem claim_C1_locked_reread_not_returned :
    tokenValid 0 ⟨"cached", some 1000⟩ = true ∧
    getTokenCore 0 (.ok none) (.ok (some ⟨"cached", some 1000⟩))
        (.ok ⟨"fresh", some 1000⟩) =
      ⟨.ok ⟨"fresh", some 1000⟩, true, true, some ⟨"fresh", some 1000⟩, 2⟩ :=
  ⟨rfl, rfl⟩

/-- Claim C2, counterexample: the scope lists [a, a] and [a] are equal as
sets, but the derived keys differ, because joining after sorting keeps
duplicates and SHA-1 of the string a,a differs from SHA-1 of a. -/
theorem claim_C2_counterexample :
    (∀ x : String, x ∈ (["a", "a"] : List String) ↔ x ∈ (["a"] : List String)) ∧
    credKeyWithScopes (credKey "n") (some ["a", "a"]) ≠
      credKeyWithScopes (credKey "n") (some ["a"]) := by
  constructor
  · intro x
    simp
  · decide

/-- Claim C2 as amended: for every name and every pair of scope lists that are
permutations of one another (equal as multisets, so order-insensitive but
duplicate-sensitive), the derived storage key is identical. -/
theorem claim_C2_scope_multiset_key (name : String) (s1 s2 : List String)
    (h : s1.Perm s2) :
    credKeyWithScopes (credKey name) (some s1) =
      credKeyWithScopes (credKey name) (some s2) := by
  have hs : sortStrings s1 = sortStrings s2 := sortStrings_eq_of_perm h
  show credKey name ++ "/" ++ bytesToHex (scopesHash (some (sortStrings s1))) =
    credKey name ++ "/" ++ bytesToHex (scopesHash (some (sortStrings s2)))
  rw [hs]

/-- Witness for claim C2 at a concrete permutation. -/
theorem claim_C2_scope_multiset_key_witness :
    credKeyWithScopes (credKey "n") (some ["b", "a"]) =
      credKeyWithScopes (credKey "n") (some ["a", "b"]) :=
  claim_C2_scope_multiset_key "n" ["b", "a"] ["a", "b"] (by decide)

/-- Claim C8: with no configuration record, credsReadOperation answers the
Not configured error response and performs no key derivation, no token-record
read, no lock acquisition, no upstream call and no storage change. -/
theorem claim_C8_not_configured (now : Int) (s : Storage) (name : String)
    (scopesParam : Option (List String)) (xchg : ExchangeReq → Except XErr OToken) :
    credsReadOperation now s none name scopesParam xchg =
      ⟨some (.errResp "Not configured"), none, s, false, false, 0⟩ := rfl

/-- Claim C9, counterexample: credKeyWithScopes does not leave its scope-list
argument unchanged: it sorts the caller-supplied slice in place, so after the
call with [b, a] the slice no longer holds [b, a]. -/
theorem claim_C9_counterexample :
    (credKeyWithScopesM "k" (some ["b", "a"])).2 ≠ some ["b", "a"] := by decide

/-- Claim C9 as amended: key derivation is pure in its result and total over
every name and finite scope list including the empty one, and never fails,
but it sorts the scope-list argument in place: after the call the argument
holds the ascending permutation of its previous contents (unchanged only when
already sorted), and the derived key is a total function of the sorted
slice. -/
theorem claim_C9_total_sorts_in_place (key : String) (scopes : Option (List String)) :
    (credKeyWithScopesM key scopes).2 = scopes.map sortStrings ∧
    (∀ l, scopes = some l →
      (credKeyWithScopesM key scopes).2 = some (sortStrings l) ∧
      (sortStrings l).Perm l) ∧
    (scopes = none → (credKeyWithScopesM key scopes).2 = none) ∧
    credKeyWithScopes key scopes =
      key ++ "/" ++ bytesToHex (scopesHash (scopes.map sortStrings)) := by
  refine ⟨rfl, ?_, ?_, rfl⟩
  · intro l hl
    subst hl
    exact ⟨rfl, sortStrings_perm l⟩
  · intro h
    subst h
    rfl

/-- Witness for claim C9 at a concrete unsorted scope list. -/
theorem claim_C9_total_sorts_in_place_witness :
    (credKeyWithScopesM "k" (some ["b", "a"])).2 = some (sortStrings ["b", "a"]) ∧
    (sortStrings ["b", "a"]).Perm ["b", "a"] :=
  (claim_C9_total_sorts_in_place "k" (some ["b", "a"])).2.1 ["b", "a"] rfl

/-- Claim C10: two stored configurations differing only in the client secret
produce identical configReadOperation responses, and the response data holds
exactly the client_id, token_url and scopes fields, never the secret. -/
theorem claim_C10_secret_not_in_read (c1 c2 : config)
    (hid : c1.clientID = c2.clientID) (hurl : c1.tokenURL = c2.tokenURL)
    (hsc : c1.scopes = c2.scopes) :
    configReadOperation (some c1) = configReadOperation (some c2) ∧
    (configReadOperation (some c1)).map (fun l => l.map (fun p => p.1)) =
      some ["client_id", "token_url", "scopes"] := by
  constructor
  · simp [configReadOperation, hid, hurl, hsc]
  · rfl

/-- Witness for claim C10 at two concrete configurations differing only in
the secret. -/
theorem claim_C10_secret_not_in_read_witness :
    configReadOperation (some ⟨"id", "secretA", "url", none⟩) =
      configReadOperation (some ⟨"id", "secretB", "url", none⟩) :=
  (claim_C10_secret_not_in_read ⟨"id", "secretA", "url", none⟩
    ⟨"id", "secretB", "url", none⟩ rfl rfl rfl).1

/-- When the cached record at key is absent or invalid, getToken takes the
locked path and its outcome is determined by the exchange result: a
RetrieveError becomes errInvalidCredentials, any other error passes through,
and a returned token is persisted at key; storage is untouched on failure. -/
theorem getToken_exchange_path (now : Int) (s : Storage) (c : config) (key : String)
    (scopes : Option (List String)) (xchg : ExchangeReq → Except XErr OToken)
    (hnv : optTokenValid now (sget s key) = false) :
    getToken now s c key scopes xchg =
      match xchg (clientCredsConfig c scopes) with
      | .error (.retrieve _) => ⟨.err .invalidCredentials, s, true, true, 2⟩
      | .error (.other m) => ⟨.err (.upstream m), s, true, true, 2⟩
      | .ok t => ⟨.ok t, sput s key t, true, true, 2⟩ := by
  simp only [getToken]
  rcases hg : sget s key with _ | t
  · rw [hg] at hnv
    simp only [getTokenCore, getTokenLocked_reread_dead]
    rcases hx : xchg (clientCredsConfig c scopes) with e | t1
    · rcases e with m | m <;> rfl
    · rfl
  · rw [hg] at hnv
    simp only [optTokenValid] at hnv
    simp only [getTokenCore, hnv, Bool.false_eq_true, if_false, getTokenLocked_reread_dead]
    rcases hx : xchg (clientCredsConfig c scopes) with e | t1
    · rcases e with m | m <;> rfl
    · rfl

/-- Claim C5: when storage already holds a present, valid token at the key,
getToken returns it at once with no lock, no exchange, no write and a single
storage read; consequently a second identical call on the resulting storage
returns the very same token and again performs no upstream call. -/
theorem getToken_fast_path (now : Int) (s : Storage) (c : config) (key : String)
    (scopes : Option (List String)) (xchg : ExchangeReq → Except XErr OToken)
    (t : OToken) (hget : sget s key = some t) (hval : tokenValid now t = true) :
    getToken now s c key scopes xchg = ⟨.ok t, s, false, false, 1⟩ := by
  simp only [getToken, hget, getTokenCore, hval, if_true, mkRun]

theorem claim_C5_fast_path (now : Int) (s : Storage) (c : config) (key : String)
    (scopes : Option (List String)) (xchg : ExchangeReq → Except XErr OToken)
    (t : OToken) (hget : sget s key = some t) (hval : tokenValid now t = true) :
    getToken now s c key scopes xchg = ⟨.ok t, s, false, false, 1⟩ ∧
    getToken now (getToken now s c key scopes xchg).store c key scopes xchg =
      ⟨.ok t, s, false, false, 1⟩ := by
  have h1 := getToken_fast_path now s c key scopes xchg t hget hval
  refine ⟨h1, ?_⟩
  rw [h1]
  exact h1

/-- Witness for claim C5 on a concrete storage holding a valid token. -/
theorem claim_C5_fast_path_witness :
    getToken 0 [("k", ⟨"tok", some 100⟩)] ⟨"id", "sec", "url", none⟩ "k" none
        (fun _ => .error (.other "net")) =
      ⟨.ok ⟨"tok", some 100⟩, [("k", ⟨"tok", some 100⟩)], false, false, 1⟩ ∧
    getToken 0 (getToken 0 [("k", ⟨"tok", some 100⟩)] ⟨"id", "sec", "url", none⟩ "k"
        none (fun _ => .error (.other "net"))).store ⟨"id", "sec", "url", none⟩ "k" none
        (fun _ => .error (.other "net")) =
      ⟨.ok ⟨"tok", some 100⟩, [("k", ⟨"tok", some 100⟩)], false, false, 1⟩ :=
  claim_C5_fast_path 0 [("k", ⟨"tok", some 100⟩)] ⟨"id", "sec", "url", none⟩ "k" none
    (fun _ => .error (.other "net")) ⟨"tok", some 100⟩ rfl rfl

/-- Claim C6: when no valid cached token exists and the upstream exchange
fails, getToken returns errInvalidCredentials exactly when the failure is a
RetrieveError (the provider rejected the request), passes any other upstream
failure through unchanged, and in either failure case writes nothing: the
storage is exactly as before. -/
theorem claim_C6_error_classification (now : Int) (s : Storage) (c : config)
    (key : String) (scopes : Option (List String))
    (xchg : ExchangeReq → Except XErr OToken)
    (hnv : optTokenValid now (sget s key) = false) :
    (∀ m, xchg (clientCredsConfig c scopes) = .error (.retrieve m) →
      getToken now s c key scopes xchg = ⟨.err .invalidCredentials, s, true, true, 2⟩) ∧
    (∀ m, xchg (clientCredsConfig c scopes) = .error (.other m) →
      getToken now s c key scopes xchg = ⟨.err (.upstream m), s, true, true, 2⟩) := by
  constructor <;> intro m hm <;> rw [getToken_exchange_path now s c key scopes xchg hnv, hm]

/-- Witness for claim C6: a provider rejection on an empty cache. -/
theorem claim_C6_error_classification_witness :
    getToken 0 [] ⟨"id", "sec", "url", none⟩ "k" none
        (fun _ => .error (.retrieve "401")) =
      ⟨.err .invalidCredentials, [], true, true, 2⟩ :=
  (claim_C6_error_classification 0 [] ⟨"id", "sec", "url", none⟩ "k" none
    (fun _ => .error (.retrieve "401")) rfl).1 "401" rfl

/-- Claim C7, counterexample: a freshly exchanged token is returned without a
validity check, so when the upstream answers with a token expiring within the
10 second safety margin (the repository test TestTokenRead does exactly this
with expires_in equal to 5), getToken returns a token that is not valid and
credsReadOperation answers the Token expired error response, which the claim
says is unreachable. -/
theorem claim_C7_counterexample :
    tokenValid 0 ⟨"abcd1", some 5⟩ = false ∧
    (getToken 0 [] ⟨"foo", "bar", "url", some ["a", "b", "c"]⟩ "k" none
        (fun _ => .ok ⟨"abcd1", some 5⟩)).result = .ok ⟨"abcd1", some 5⟩ ∧
    (credsReadOperation 0 [] (some ⟨"foo", "bar", "url", some ["a", "b", "c"]⟩)
        "user" none (fun _ => .ok ⟨"abcd1", some 5⟩)).resp =
      some (.errResp "Token expired") := by
  refine ⟨rfl, rfl, ?_⟩
  rfl

/-- Claim C7 as amended: a token that getToken returns without having run the
upstream exchange is always valid, and a stored token that is invalid (in
particular one whose expiry is past) is never returned from the cache: the
call then runs the upstream exchange, and on success returns the freshly
exchanged token and persists it. The freshly exchanged token itself is
returned without a validity check, so the Token expired response in
credsReadOperation is reachable exactly when the upstream hands back an
already-invalid token. -/
theorem claim_C7_validity_on_cached_paths (now : Int) (s : Storage) (c : config)
    (key : String) (scopes : Option (List String))
    (xchg : ExchangeReq → Except XErr OToken) :
    (∀ t, (getToken now s c key scopes xchg).result = .ok t →
      (getToken now s c key scopes xchg).exchanged = false →
      tokenValid now t = true) ∧
    (∀ t0, sget s key = some t0 → tokenValid now t0 = false →
      (getToken now s c key scopes xchg).exchanged = true ∧
      ∀ t1, xchg (clientCredsConfig c scopes) = .ok t1 →
        (getToken now s c key scopes xchg).result = .ok t1 ∧
        (getToken now s c key scopes xchg).store = sput s key t1) := by
  constructor
  · intro t hres hex
    rcases hg : sget s key with _ | t0
    · have hnv : optTokenValid now (sget s key) = false := by rw [hg]; rfl
      rw [getToken_exchange_path now s c key scopes xchg hnv] at hex
      rcases hx : xchg (clientCredsConfig c scopes) with e | t1
      · rcases e with m | m <;> rw [hx] at hex <;> simp at hex
      · rw [hx] at hex
        simp at hex
    · rcases hv : tokenValid now t0
      · have hnv : optTokenValid now (sget s key) = false := by
          rw [hg]
          simpa [optTokenValid] using hv
        rw [getToken_exchange_path now s c key scopes xchg hnv] at hex
        rcases hx : xchg (clientCredsConfig c scopes) with e | t1
        · rcases e with m | m <;> rw [hx] at hex <;> simp at hex
        · rw [hx] at hex
          simp at hex
      · have h1 := getToken_fast_path now s c key scopes xchg t0 hg hv
        rw [h1] at hres
        simp only [GTRes.ok.injEq] at hres
        rw [← hres]
        exact hv
  · intro t0 hg hv
    have hnv : optTokenValid now (sget s key) = false := by
      rw [hg]
      simpa [optTokenValid] using hv
    have hpath := getToken_exchange_path now s c key scopes xchg hnv
    constructor
    · rw [hpath]
      rcases hx : xchg (clientCredsConfig c scopes) with e | t1
      · rcases e with m | m <;> rfl
      · rfl
    · intro t1 hx1
      rw [hpath, hx1]
      exact ⟨rfl, rfl⟩

/-- Witness for claim C7: an expired cached token forces an exchange and the
fresh token is returned and persisted. -/
theorem claim_C7_validity_on_cached_paths_witness :
    (getToken 0 [("k", ⟨"old", some (-100)⟩)] ⟨"id", "sec", "url", none⟩ "k" none
        (fun _ => .ok ⟨"new", some 1000⟩)).exchanged = true ∧
    (getToken 0 [("k", ⟨"old", some (-100)⟩)] ⟨"id", "sec", "url", none⟩ "k" none
        (fun _ => .ok ⟨"new", some 1000⟩)).result = .ok ⟨"new", some 1000⟩ :=
  ⟨((claim_C7_validity_on_cached_paths 0 [("k", ⟨"old", some (-100)⟩)]
      ⟨"id", "sec", "url", none⟩ "k" none (fun _ => .ok ⟨"new", some 1000⟩)).2
      ⟨"old", some (-100)⟩ rfl rfl).1,
   (((claim_C7_validity_on_cached_paths 0 [("k", ⟨"old", some (-100)⟩)]
      ⟨"id", "sec", "url", none⟩ "k" none (fun _ => .ok ⟨"new", some 1000⟩)).2
      ⟨"old", some (-100)⟩ rfl rfl).2 ⟨"new", some 1000⟩ rfl).1⟩

/-! Lemmas for the deletion cascade: hex suffixes contain no slash, so every
token key sits directly under its name bucket and the List plus delete loop
of credsDeleteOperation reaches it. -/

theorem hexDigit_ne_slash : ∀ n : Nat, n < 16 → hexDigit n ≠ '/' := by decide

theorem word4_lt (x : Nat) : ∀ b ∈ word4 x, b < 256 := by
  intro b hb
  simp only [word4, List.mem_cons, List.not_mem_nil, or_false] at hb
  rcases hb with h | h | h | h <;> subst h <;> omega

theorem sha1_bytes_lt (msg : List Nat) : ∀ b ∈ sha1 msg, b < 256 := by
  intro b hb
  unfold sha1 at hb
  simp only [List.mem_append] at hb
  rcases hb with (((h | h) | h) | h) | h <;> exact word4_lt _ _ h

theorem defaultScopesHash_lt : ∀ b ∈ defaultScopesHash, b < 256 := by
  intro b hb
  simp only [defaultScopesHash, List.mem_cons, List.mem_replicate] at hb
  rcases hb with h | ⟨_, h⟩ <;> omega

theorem scopesHash_lt (scopes : Option (List String)) :
    ∀ b ∈ scopesHash scopes, b < 256 := by
  cases scopes with
  | none => exact defaultScopesHash_lt
  | some l => exact sha1_bytes_lt _

theorem slash_not_mem_hexChars : ∀ bs : List Nat, (∀ b ∈ bs, b < 256) →
    '/' ∉ bytesToHexChars bs := by
  intro bs
  induction bs with
  | nil => intro _ h; simp [bytesToHexChars] at h
  | cons b rest ih =>
    intro hlt hmem
    have hb : b < 256 := hlt b (List.mem_cons_self b rest)
    simp only [bytesToHexChars, List.mem_cons] at hmem
    rcases hmem with h | h | h
    · exact hexDigit_ne_slash (b / 16) (by omega) h.symm
    · exact hexDigit_ne_slash (b % 16) (by omega) h.symm
    · exact ih (fun x hx => hlt x (List.mem_cons_of_mem b hx)) h

theorem slash_not_in_hex (bs : List Nat) (hlt : ∀ b ∈ bs, b < 256) :
    '/' ∉ (bytesToHex bs).data :=
  slash_not_mem_hexChars bs hlt

theorem dropPfx_append : ∀ p r : List Char, dropPfx p (p ++ r) = some r := by
  intro p
  induction p with
  | nil => intro r; rfl
  | cons a p ih => intro r; simp [dropPfx, ih]

theorem firstSeg_no_slash : ∀ r : List Char, '/' ∉ r → firstSeg r = r := by
  intro r
  induction r with
  | nil => intro _; rfl
  | cons c cs ih =>
    intro h
    have hc : c ≠ '/' := fun he => h (he ▸ List.mem_cons_self c cs)
    have hcs : '/' ∉ cs := fun hm => h (List.mem_cons_of_mem c hm)
    simp [firstSeg, fun he : c = '/' => hc he, ih hcs]

theorem sget_none_iff (s : Storage) (k : String) :
    sget s k = none ↔ List.find? (fun p => p.1 == k) s = none := by
  unfold sget
  cases List.find? (fun p => p.1 == k) s <;> simp

theorem sget_sdelete_self (s : Storage) (k : String) : sget (sdelete s k) k = none := by
  rw [sget_none_iff, List.find?_eq_none]
  intro p hp
  have := (List.mem_filter.mp hp).2
  simp_all [sdelete]

theorem sget_none_sdelete (s : Storage) (k dk : String) (h : sget s k = none) :
    sget (sdelete s dk) k = none := by
  rw [sget_none_iff, List.find?_eq_none]
  rw [sget_none_iff, List.find?_eq_none] at h
  intro p hp
  exact h p (List.mem_filter.mp hp).1

theorem foldl_delete_none (f : String → String) (l : List String) :
    ∀ (s : Storage) (k : String), sget s k = none →
      sget (l.foldl (fun st x => sdelete st (f x)) s) k = none := by
  induction l with
  | nil => intro s k h; exact h
  | cons hd tl ih =>
    intro s k h
    exact ih (sdelete s (f hd)) k (sget_none_sdelete s k (f hd) h)

theorem foldl_delete_mem (f : String → String) (l : List String) :
    ∀ (s : Storage) (c : String), c ∈ l →
      sget (l.foldl (fun st x => sdelete st (f x)) s) (f c) = none := by
  induction l with
  | nil => intro s c h; exact absurd h (List.not_mem_nil c)
  | cons hd tl ih =>
    intro s c h
    rcases List.mem_cons.mp h with he | hm
    · subst he
      exact foldl_delete_none f tl (sdelete s (f c)) (f c) (sget_sdelete_self s (f c))
    · exact ih (sdelete s (f hd)) c hm

theorem sget_some_mem_key (s : Storage) (k : String) (t : OToken)
    (h : sget s k = some t) : k ∈ s.map (fun p => p.1) := by
  unfold sget at h
  cases hf : List.find? (fun p => p.1 == k) s with
  | none => rw [hf] at h; simp at h
  | some p =>
    have hmem := List.mem_of_find?_eq_some hf
    have hpred := List.find?_some hf
    have hk : p.1 = k := by simpa using hpred
    exact hk ▸ List.mem_map_of_mem (fun q => q.1) hmem

theorem mem_slist_of_key (s : Storage) (pos sfx : String)
    (hns : '/' ∉ sfx.data) (t : OToken) (h : sget s (pos ++ sfx) = some t) :
    sfx ∈ slist s pos := by
  have hmem := sget_some_mem_key s (pos ++ sfx) t h
  unfold slist
  refine List.mem_dedup.mpr (List.mem_filterMap.mpr ⟨pos ++ sfx, hmem, ?_⟩)
  rw [String.data_append, dropPfx_append]
  show some (String.mk (firstSeg sfx.data)) = some sfx
  rw [firstSeg_no_slash sfx.data hns]

/-- Claim C4: credsDeleteOperation holds the broker-wide lock, and after it
runs no cached token remains at the key of any scope variant of the name;
deleting a name with no stored suffix keys leaves storage unchanged (a
successful no-op). -/
theorem claim_C4_delete_cascade (s : Storage) (name : String)
    (scopes : Option (List String)) :
    (credsDeleteOperation s name).locked = true ∧
    sget (credsDeleteOperation s name).store
      (credKeyWithScopes (credKey name) scopes) = none ∧
    (slist s (credKey name ++ "/") = [] → (credsDeleteOperation s name).store = s) := by
  refine ⟨rfl, ?_, ?_⟩
  · show sget ((slist s (credKey name ++ "/")).foldl
      (fun st sc => sdelete st (credKey name ++ "/" ++ sc)) s)
      (credKey name ++ "/" ++ bytesToHex (scopesHash (scopes.map sortStrings))) = none
    rcases hg : sget s
        (credKey name ++ "/" ++ bytesToHex (scopesHash (scopes.map sortStrings)))
        with _ | t
    · exact foldl_delete_none (fun sc => credKey name ++ "/" ++ sc) _ s _ hg
    · have hns : '/' ∉ (bytesToHex (scopesHash (scopes.map sortStrings))).data :=
        slash_not_in_hex _ (scopesHash_lt _)
      have hmem : bytesToHex (scopesHash (scopes.map sortStrings)) ∈
          slist s (credKey name ++ "/") :=
        mem_slist_of_key s (credKey name ++ "/") _ hns t hg
      exact foldl_delete_mem (fun sc => credKey name ++ "/" ++ sc) _ s _ hmem
  · intro h
    show (slist s (credKey name ++ "/")).foldl
      (fun st sc => sdelete st (credKey name ++ "/" ++ sc)) s = s
    rw [h]
    rfl

/-- Witness for claim C4: deleting removes the stored no-scopes variant, and
deleting from empty storage is a no-op. -/
theorem claim_C4_delete_cascade_witness :
    sget (credsDeleteOperation
        [(credKeyWithScopes (credKey "user") none, ⟨"tok", none⟩)] "user").store
      (credKeyWithScopes (credKey "user") none) = none ∧
    (credsDeleteOperation [] "user").store = ([] : Storage) :=
  ⟨(claim_C4_delete_cascade
      [(credKeyWithScopes (credKey "user") none, ⟨"tok", none⟩)] "user" none).2.1,
   (claim_C4_delete_cascade [] "user" none).2.2 rfl⟩

/-! Known-answer tests pinning the SHA-1 embedding to the standard digests,
and the decidable separation facts around the no-scopes sentinel. -/

theorem sha1_empty_kat :
    bytesToHex (sha1 (strBytes "")) = "da39a3ee5e6b4b0d3255bfef95601890afd80709" := by
  decide

theorem sha1_abc_kat :
    bytesToHex (sha1 (strBytes "abc")) = "a9993e364706816aba3e25717850c26c9cd0d89d" := by
  decide

/-- The nil-scopes key (sentinel suffix) differs from the empty-list key
(hash of the empty string) and from a sample singleton key; the universal
disjointness of the sentinel from every hashed scope list is a SHA-1
preimage question and is not decided here. -/
theorem sentinel_key_separations :
    credKeyWithScopes "k" none ≠ credKeyWithScopes "k" (some []) ∧
    credKeyWithScopes "k" none ≠ credKeyWithScopes "k" (some ["a"]) := by
  constructor <;> decide

end OAuthCC
